import Mathlib

/-!
Shallow embedding of `photo_tool` (src/photo_tool/watermark.py and
src/photo_tool/utils.py).

Modelling conventions:
* Python `float` values (font_size, opacity, line_spacing, shadow parameters,
  text coordinates) are modelled by `ℚ` with exact arithmetic.
* Pixel channels are natural numbers; PIL stores 8-bit channels, so
  well-formed pixels satisfy `≤ 255`.  Channel-producing operations clamp to
  the byte range the way PIL's lookup tables / C casts keep results in range.
* External collaborators (PIL font metric queries `font.getsize`, Gaussian
  blur, glyph rasterisation `draw.text`, `Image.alpha_composite`, the
  filesystem, ffmpeg) are oracle parameters: arbitrary functions supplied to
  the embedded code, never reimplemented.
* The unbounded `while True` font-size search is embedded as a fuel-indexed
  loop; `none` means the fuel ran out, i.e. the source loop has not yet
  terminated after that many iterations.
-/

namespace PhotoTool

/-- Python `int(q)`: truncation toward zero of a rational. -/
def pyInt (q : ℚ) : ℤ := if 0 ≤ q then ⌊q⌋ else ⌈q⌉

/-- Clamp an integer into the 8-bit channel range `0..255`. -/
def clamp8 (z : ℤ) : ℕ := (max 0 (min 255 z)).toNat

/-- The whitespace characters of Python's `str.split()` / `str.strip()`. -/
def pyIsSpace (c : Char) : Bool :=
  c = ' ' || c = '\t' || c = '\n' || c = '\r' || c = '\x0b' || c = '\x0c'

/-- Split a character list at every character satisfying `p`, keeping empty
pieces (so splitting the empty list yields one empty piece, like Python's
`str.split(sep)`). -/
def splitOnP (p : Char → Bool) : List Char → List (List Char)
  | [] => [[]]
  | c :: rest =>
    match splitOnP p rest with
    | [] => [[]]
    | g :: gs => if p c then [] :: g :: gs else (c :: g) :: gs

/-- Python `s.split(',')`. -/
def pySplitComma (s : String) : List String :=
  (splitOnP (fun c => c = ',') s.toList).map String.mk

/-- Python `s.split('\n')`; note `''.split('\n') == ['']`. -/
def pySplitNL (s : String) : List String :=
  (splitOnP (fun c => c = '\n') s.toList).map String.mk

/-- Python `s.split()` (no separator): split on whitespace runs, dropping
empty pieces. -/
def pySplitWS (s : String) : List String :=
  ((splitOnP pyIsSpace s.toList).map String.mk).filter (fun t => t ≠ "")

/-- Python `s.strip()`: remove leading and trailing whitespace. -/
def pyStrip (s : String) : String :=
  String.mk (((s.toList.dropWhile (fun c => pyIsSpace c)).reverse.dropWhile
    (fun c => pyIsSpace c)).reverse)

/-! ## Position parsing (watermark.py lines 36-49)

`h_pos = -1` means right, `h_pos = 1` means left; `v_pos = -1` means bottom,
`v_pos = 1` means top, exactly as the integers in the source. -/

/-- The message of the ValueError raised for an unrecognized token; the
repr-quoting `!r` of the original position string is kept abstractly as
the string itself. -/
def posErr (position : String) : String := "Unrecognized position: " ++ position

/-- The token loop of `add_watermark` (lines 39-49), threading the
`(h_pos, v_pos)` accumulator; an unknown token raises. -/
def parseTokens (position : String) : List String → ℤ → ℤ → Except String (ℤ × ℤ)
  | [], h, v => .ok (h, v)
  | tok :: rest, h, v =>
    if tok = "right" then parseTokens position rest (-1) v
    else if tok = "left" then parseTokens position rest 1 v
    else if tok = "bottom" then parseTokens position rest h (-1)
    else if tok = "top" then parseTokens position rest h 1
    else .error (posErr position)

/-- Parsing of the `position` argument: start from the defaults
`h_pos, v_pos = -1, -1` (right bottom) and fold the whitespace-separated
tokens. -/
def parsePosition (position : String) : Except String (ℤ × ℤ) :=
  parseTokens position (pySplitWS position) (-1) (-1)

/-- Whether a token is one of the four recognized position words. -/
def tokenRecognized (t : String) : Bool :=
  t = "right" || t = "left" || t = "bottom" || t = "top"

/-- Specification-side horizontal axis value: the last horizontal token wins,
default `-1` (right). -/
def axisH (toks : List String) : ℤ :=
  toks.foldl (fun a t => if t = "right" then -1 else if t = "left" then 1 else a) (-1)

/-- Specification-side vertical axis value: the last vertical token wins,
default `-1` (bottom). -/
def axisV (toks : List String) : ℤ :=
  toks.foldl (fun a t => if t = "bottom" then -1 else if t = "top" then 1 else a) (-1)

/-! ## Font auto-sizing (watermark.py lines 52-60) -/

/-- The fixed calibration string whose rendered height drives auto-sizing. -/
def calibText : String := "摄影/后期：@02_yuyuko"

/-- `min(*input_image.size) * 0.04 * font_size`, the line-height threshold. -/
def fontThreshold (imW imH : ℕ) (fontSize : ℚ) : ℚ :=
  (min imW imH : ℚ) * (4 / 100) * fontSize

/-- The `k`-th candidate size of the search sequence `2, 4, 6, ...`. -/
def sizeAt (k : ℕ) : ℕ := 2 + 2 * k

/-- The `k`-th candidate size makes the measured line height of the
calibration string exceed the threshold.  `getsize size text = (w, h)`
models `ImageFont.truetype(font_file, size).getsize(text)`. -/
def exceedsAt (getsize : ℕ → String → ℕ × ℕ) (thr : ℚ) (k : ℕ) : Prop :=
  thr < ((getsize (sizeAt k) calibText).2 : ℚ)

instance (getsize : ℕ → String → ℕ × ℕ) (thr : ℚ) (k : ℕ) :
    Decidable (exceedsAt getsize thr k) :=
  inferInstanceAs (Decidable (_ < _))

/-- Fuel-indexed embedding of the `while True: ... size += 2` search loop:
from `size`, return the first candidate whose measured calibration line
height exceeds `thr`, or `none` when the fuel runs out. -/
def sizeLoop (getsize : ℕ → String → ℕ × ℕ) (thr : ℚ) : ℕ → ℕ → Option ℕ
  | 0, _ => none
  | fuel + 1, size =>
    if thr < ((getsize size calibText).2 : ℚ) then some size
    else sizeLoop getsize thr fuel (size + 2)

/-- `margin = line_height` measured at the selected size (line 60). -/
def marginFor (getsize : ℕ → String → ℕ × ℕ) (size : ℕ) : ℕ :=
  (getsize size calibText).2

/-! ## Font family list parsing (utils.py line 16) -/

/-- `[n.strip() for n in family.split(',') if n.strip()]`. -/
def parseFamilies (family : String) : List String :=
  ((pySplitComma family).map pyStrip).filter (fun n => n ≠ "")

/-- Inner loop of `get_font` (lines 34-37): try one family name against each
search directory in order, recording each `(name, dir)` query.
`tr dir name` models `traverse_dir(dir, name)`, the recursive filesystem
walk, as an oracle. -/
def searchDirsFor (tr : String → String → Option String) (name : String) :
    List String → List (String × String) × Option String
  | [] => ([], none)
  | d :: ds =>
    match tr d name with
    | some p => ([(name, d)], some p)
    | none =>
      let r := searchDirsFor tr name ds
      ((name, d) :: r.1, r.2)

/-- Outer loop of `get_font` (line 33): names take priority over
directories. -/
def searchNames (tr : String → String → Option String) (dirs : List String) :
    List String → List (String × String) × Option String
  | [] => ([], none)
  | n :: ns =>
    let r := searchDirsFor tr n dirs
    match r.2 with
    | some p => (r.1, some p)
    | none =>
      let r2 := searchNames tr dirs ns
      (r.1 ++ r2.1, r2.2)

/-- `get_font(family)` (utils.py lines 7-39), instrumented with the list of
`(name, dir)` directory searches it performs; raises `IOError` when no
family matches. -/
def getFont (tr : String → String → Option String) (dirs : List String)
    (family : String) : List (String × String) × Except String String :=
  let r := searchNames tr dirs (parseFamilies family)
  match r.2 with
  | some p => (r.1, .ok p)
  | none => (r.1, .error ("Font not found: " ++ family))

/-! ## Images and the PIL operations the compositor uses -/

/-- An RGBA pixel; PIL stores 8-bit channels, so well-formed channels are
`≤ 255`. -/
structure Pixel where
  r : ℕ
  g : ℕ
  b : ℕ
  a : ℕ
deriving DecidableEq, Repr

/-- All four channels fit the 8-bit range, as every PIL buffer guarantees. -/
def Pixel.inRange (p : Pixel) : Prop :=
  p.r ≤ 255 ∧ p.g ≤ 255 ∧ p.b ≤ 255 ∧ p.a ≤ 255

instance (p : Pixel) : Decidable p.inRange :=
  inferInstanceAs (Decidable (_ ∧ _ ∧ _ ∧ _))

/-- An RGBA image: dimensions plus a total pixel map. -/
structure Img where
  width : ℕ
  height : ℕ
  px : ℕ → ℕ → Pixel

/-- An RGBA color with rational components in `[0, 1]`, as the
`shadow_color` 4-tuple of floats. -/
structure RGBA where
  r : ℚ
  g : ℚ
  b : ℚ
  a : ℚ
deriving DecidableEq, Repr

/-- `int(v * 255)` for one float color component, stored into an 8-bit
channel. -/
def toByte (v : ℚ) : ℕ := clamp8 (pyInt (v * 255))

/-- `Image.new('RGBA', (w, h), color)`. -/
def newImg (w h : ℕ) (c : Pixel) : Img := ⟨w, h, fun _ _ => c⟩

/-- `im.putalpha(chan)`: replace the alpha band by a channel map. -/
def putalpha (im : Img) (chan : ℕ → ℕ → ℕ) : Img :=
  ⟨im.width, im.height, fun x y => { im.px x y with a := chan x y }⟩

/-- Cyclic index used by `ImageChops.offset`: coordinates wrap modulo the
image dimension. -/
def cycIdx (n : ℕ) (i : ℤ) : ℕ := (i % (n : ℤ)).toNat

/-- `ImageChops.offset(im, dx, dy)`: shift with wrap-around. -/
def chopsOffset (im : Img) (dx dy : ℤ) : Img :=
  ⟨im.width, im.height, fun x y =>
    im.px (cycIdx im.width ((x : ℤ) - dx)) (cycIdx im.height ((y : ℤ) - dy))⟩

/-- PIL's fixed-point `MULDIV255(a, b)`: `a * b / 255` with correct rounding
for 8-bit operands (`tmp = a*b + 128; ((tmp >> 8) + tmp) >> 8`). -/
def muldiv255 (a b : ℕ) : ℕ :=
  ((a * b + 128) / 256 + (a * b + 128)) / 256

/-- One channel of PIL `paste`-with-mask blending: backdrop `bg` under
pasted value `fg` with mask weight `m` (mask `255` selects `fg`). -/
def blendChan (bg fg m : ℕ) : ℕ := muldiv255 bg (255 - m) + muldiv255 fg m

/-- Pixelwise `paste` blend of two pixels under a mask weight. -/
def blendPixel (bg fg : Pixel) (m : ℕ) : Pixel :=
  ⟨blendChan bg.r fg.r m, blendChan bg.g fg.g m,
   blendChan bg.b fg.b m, blendChan bg.a fg.a m⟩

/-- `Image.composite(im1, im2, mask)` = copy of `im2` with `im1` pasted
through `mask`: the mask's alpha band weights `im1` over `im2` inside
`im1`'s box; outside it `im2` shows through. -/
def compositeImg (im1 im2 mask : Img) : Img :=
  ⟨im2.width, im2.height, fun x y =>
    if x < im1.width ∧ y < im1.height then
      blendPixel (im2.px x y) (im1.px x y) ((mask.px x y).a)
    else im2.px x y⟩

/-- One channel of `ImageEnhance.Brightness(band).enhance(factor)`:
`Image.blend` of the black degenerate with the band, i.e.
`CLIP8(factor * v)` with C float-to-int truncation. -/
def enhanceChan (factor : ℚ) (chan : ℕ → ℕ → ℕ) : ℕ → ℕ → ℕ :=
  fun x y => clamp8 (pyInt (factor * (chan x y : ℚ)))

/-! ## `make_shadow` (watermark.py lines 14-22) -/

/-- `make_shadow(im, offset, shadow_color, blur_radius)`:
1. a new RGBA image filled with `tuple(int(v * 255) for v in shadow_color)`;
2. `putalpha` of the text layer's alpha band mapped through
   `lambda i: int(i * shadow_color[3])`;
3. `ImageChops.offset` by `(int(offset[0]), int(offset[1]))`;
4. Gaussian blur (external, the `blur` oracle) of radius `blur_radius`. -/
def makeShadow (blur : ℚ → Img → Img) (im : Img) (offset : ℚ × ℚ)
    (shadowColor : RGBA) (blurRadius : ℚ) : Img :=
  let base0 := newImg im.width im.height
    ⟨toByte shadowColor.r, toByte shadowColor.g,
     toByte shadowColor.b, toByte shadowColor.a⟩
  let base := putalpha base0
    (fun x y => clamp8 (pyInt (((im.px x y).a : ℚ) * shadowColor.a)))
  let shifted := chopsOffset base (pyInt offset.1) (pyInt offset.2)
  blur blurRadius shifted

/-! ## Text layout (watermark.py lines 63-89) -/

/-- The bounding-box fold (lines 65-70): maximum line width, and the sum of
line heights plus one `spacing` per line, with one trailing `spacing`
subtracted at the end. -/
def wmBox (getsize : ℕ → String → ℕ × ℕ) (size : ℕ) (spacing : ℚ)
    (lines : List String) : ℕ × ℚ :=
  let r := lines.foldl
    (fun (acc : ℕ × ℚ) (line : String) =>
      let wh := getsize size line
      (max acc.1 wh.1, acc.2 + wh.2 + spacing))
    (0, 0)
  (r.1, r.2 - spacing)

/-- The starting vertical offset of `plot_lines` (line 75):
`im_h - wm_height - margin` when `v_pos = -1` (bottom), else `margin`. -/
def startY (imH : ℕ) (vpos : ℤ) (wmHeight : ℚ) (margin : ℕ) : ℚ :=
  if vpos = -1 then (imH : ℚ) - wmHeight - (margin : ℚ) else (margin : ℚ)

/-- The `(x, y)` offsets `plot_lines` computes for each line, starting the
vertical cursor at `y` (lines 76-85): `x = im_w - w - margin` when
`h_pos = -1` (right) else `margin`, and `y` advances by `h + spacing`. -/
def linePositionsFrom (getsize : ℕ → String → ℕ × ℕ) (size imW : ℕ)
    (hpos : ℤ) (margin : ℕ) (spacing : ℚ) :
    List String → ℚ → List (ℚ × ℚ)
  | [], _ => []
  | line :: rest, y =>
    let wh := getsize size line
    let x : ℚ := if hpos = -1 then (imW : ℚ) - (wh.1 : ℚ) - (margin : ℚ)
                 else (margin : ℚ)
    (x, y) :: linePositionsFrom getsize size imW hpos margin spacing rest
      (y + (wh.2 : ℚ) + spacing)

/-- All `(x, y)` offsets of `plot_lines`, from the computed starting
offset. -/
def linePositions (getsize : ℕ → String → ℕ × ℕ) (size imW imH : ℕ)
    (hpos vpos : ℤ) (margin : ℕ) (spacing wmHeight : ℚ)
    (lines : List String) : List (ℚ × ℚ) :=
  linePositionsFrom getsize size imW hpos margin spacing lines
    (startY imH vpos wmHeight margin)

/-- The canvas fold of `plot_lines`: draw each line (via the external
`draw.text` oracle, taking position, text and alignment) at the computed
offsets. -/
def plotLinesImg (drawText : Img → ℚ × ℚ → String → String → Img)
    (getsize : ℕ → String → ℕ × ℕ) (size imW : ℕ) (hpos : ℤ) (margin : ℕ)
    (spacing : ℚ) : Img → List String → ℚ → Img
  | im, [], _ => im
  | im, line :: rest, y =>
    let wh := getsize size line
    let x : ℚ := if hpos = -1 then (imW : ℚ) - (wh.1 : ℚ) - (margin : ℚ)
                 else (margin : ℚ)
    plotLinesImg drawText getsize size imW hpos margin spacing
      (drawText im (x, y) line (if hpos = 1 then "left" else "right")) rest
      (y + (wh.2 : ℚ) + spacing)

/-! ## `add_watermark` (watermark.py lines 25-108) -/

/-- `add_watermark`, with all external PIL capabilities as oracles and the
unbounded size-search loop on fuel (`none` = the source loop has not
terminated within `fuel` iterations; `some (.error e)` = a raised
exception; `some (.ok im)` = the returned image). -/
def addWatermark (getsize : ℕ → String → ℕ × ℕ) (blur : ℚ → Img → Img)
    (drawText : Img → ℚ × ℚ → String → String → Img)
    (alphaComp : Img → Img → Img) (fuel : ℕ) (inputImage : Img)
    (text position : String)
    (fontSize opacity lineSpacing shadowOffset shadowBlurRadius : ℚ)
    (shadowColor : RGBA := ⟨0, 0, 0, 1⟩) : Option (Except String Img) :=
  let imW := inputImage.width
  let imH := inputImage.height
  match parsePosition position with
  | .error e => some (.error e)
  | .ok hv =>
    match sizeLoop getsize (fontThreshold imW imH fontSize) fuel 2 with
    | none => none
    | some size =>
      let margin := marginFor getsize size
      let spacing := lineSpacing * (margin : ℚ)
      let lines := pySplitNL text
      let wmHeight := (wmBox getsize size spacing lines).2
      let wmImage := plotLinesImg drawText getsize size imW hv.1 margin
        spacing (newImg imW imH ⟨0, 0, 0, 0⟩) lines
        (startY imH hv.2 wmHeight margin)
      let shadowImage := makeShadow blur wmImage
        ((margin : ℚ) * shadowOffset, (margin : ℚ) * shadowOffset)
        shadowColor (shadowBlurRadius * (margin : ℚ))
      let wmImage2 := alphaComp shadowImage wmImage
      let wmImage3 := putalpha wmImage2
        (enhanceChan opacity (fun x y => (wmImage2.px x y).a))
      some (.ok (compositeImg wmImage3 inputImage wmImage3))

/-! ## Driver data model (watermark.py `main`, lines 166-223)

The sidecar JSON object is modelled as an insertion-ordered association
list (Python dicts preserve insertion order and `json.dumps`/`json.load`
round-trip it; serialisation itself is an external collaborator modelled as
the identity on this list). -/

/-- A JSON value occurring in the sidecar metadata file. -/
inductive JVal where
  | str (v : String)
  | rat (v : ℚ)
  | int (v : ℤ)
deriving DecidableEq, Repr

/-- The `options` dict built in single mode (lines 206-214), exactly the
keyword arguments later splatted into `add_watermark`. -/
def styleOptions (text position : String)
    (fontSize opacity lineSpacing shadowOffset shadowBlurRadius : ℚ) :
    List (String × JVal) :=
  [("text", .str text), ("position", .str position),
   ("font_size", .rat fontSize), ("opacity", .rat opacity),
   ("line_spacing", .rat lineSpacing), ("shadow_offset", .rat shadowOffset),
   ("shadow_blur_radius", .rat shadowBlurRadius)]

/-- The sidecar contents written after a successful single run (lines
217-223): the style options followed by `font_family`, `output_file`,
`quality` in insertion order. -/
def sidecarJson (opts : List (String × JVal)) (fontFamily outputFile : String)
    (quality : ℤ) : List (String × JVal) :=
  opts ++ [("font_family", .str fontFamily), ("output_file", .str outputFile),
           ("quality", .int quality)]

/-- Python `dict.pop(k)`: remove the entry with key `k`, returning its value
and the remaining (order-preserved) dict; `none` models a `KeyError`. -/
def popKey (k : String) : List (String × JVal) →
    Option (JVal × List (String × JVal))
  | [] => none
  | (k', v) :: rest =>
    if k' = k then some (v, rest)
    else (popKey k rest).map (fun r => (r.1, (k', v) :: r.2))

/-- Batch mode's extraction from a loaded sidecar (lines 184-187): pop
`font_family`, then `output_file`, then `quality`; what is left is passed
as the style options of the job. -/
def batchLoadOptions (j : List (String × JVal)) :
    Option (JVal × JVal × JVal × List (String × JVal)) :=
  match popKey "font_family" j with
  | none => none
  | some r₁ =>
    match popKey "output_file" r₁.2 with
    | none => none
    | some r₂ =>
      match popKey "quality" r₂.2 with
      | none => none
      | some r₃ => some (r₁.1, r₂.1, r₃.1, r₃.2)

/-! ## Driver control flow as an event trace (for the error-ordering claim) -/

/-- Observable driver actions: reading a sidecar, opening a file for
writing, invoking the job runner, resolving a font family. -/
inductive Ev where
  | readFile (p : String)
  | writeFile (p : String)
  | runJob (inputFile outputFile : String)
  | resolveFont (family : String)
deriving DecidableEq, Repr

/-- Single-file mode (lines 194-223): argument checks, the
`input_file == output_file` guard, font resolution, `run_job`, then the
sidecar write.  `fontOracle` models `get_font`, `jobOracle` the outcome of
`run_job` (which is where the output file gets opened for writing). -/
def singleMode (fontOracle : String → Except String String)
    (jobOracle : String → String → Except String Unit) (text : List String)
    (fontFamily : String) (inputFile outputFile : Option String) :
    List Ev × Except String Unit :=
  if text = [] ∨ inputFile = none ∨ outputFile = none then
    ([], .error "`--text`, `--input-file` or `--output-file` is required for single-file mode.")
  else
    match inputFile, outputFile with
    | some inp, some out =>
      if inp = out then
        ([], .error "`input_file` == `output_file`, which is not allowed.")
      else
        match fontOracle fontFamily with
        | .error e => ([.resolveFont fontFamily], .error e)
        | .ok _ =>
          match jobOracle inp out with
          | .error e => ([.resolveFont fontFamily, .runJob inp out], .error e)
          | .ok _ =>
            ([.resolveFont fontFamily, .runJob inp out,
              .writeFile (inp ++ ".json")], .ok ())
    | _, _ =>
      ([], .error "`--text`, `--input-file` or `--output-file` is required for single-file mode.")

/-- One iteration of the batch loop (lines 179-192) for one candidate file:
skip silently when no sidecar exists, otherwise load it, pop
`font_family` and resolve it, pop `output_file` and `quality`, enforce
`input_file != output_file`, then run the job.  `fsMeta` maps a sidecar
path to its contents when the file exists. -/
def batchItem (fontOracle : String → Except String String)
    (jobOracle : String → String → Except String Unit)
    (fsMeta : String → Option (List (String × JVal))) (file : String) :
    List Ev × Except String Unit :=
  let meta := file ++ ".json"
  match fsMeta meta with
  | none => ([], .ok ())
  | some j =>
    match popKey "font_family" j with
    | none => ([.readFile meta], .error "KeyError: font_family")
    | some r₁ =>
      match r₁.1 with
      | .str ff =>
        match fontOracle ff with
        | .error e => ([.readFile meta, .resolveFont ff], .error e)
        | .ok _ =>
          match popKey "output_file" r₁.2 with
          | none => ([.readFile meta, .resolveFont ff], .error "KeyError: output_file")
          | some r₂ =>
            match popKey "quality" r₂.2 with
            | none => ([.readFile meta, .resolveFont ff], .error "KeyError: quality")
            | some _ =>
              match r₂.1 with
              | .str out =>
                if file = out then
                  ([.readFile meta, .resolveFont ff],
                   .error "`input_file` == `output_file`, which is not allowed.")
                else
                  match jobOracle file out with
                  | .error e =>
                    ([.readFile meta, .resolveFont ff, .runJob file out], .error e)
                  | .ok _ =>
                    ([.readFile meta, .resolveFont ff, .runJob file out], .ok ())
              | _ => ([.readFile meta, .resolveFont ff], .error "TypeError: output_file")
      | _ => ([.readFile meta], .error "TypeError: font_family")

/-- The shadow layer of `make_shadow` just before the Gaussian blur: the
solid `shadow_color` layer carrying the text layer's scaled alpha,
cyclically translated by the truncated offsets. -/
def preBlurShadow (im : Img) (offset : ℚ × ℚ) (sc : RGBA) : Img :=
  chopsOffset
    (putalpha (newImg im.width im.height
        ⟨toByte sc.r, toByte sc.g, toByte sc.b, toByte sc.a⟩)
      (fun x y => clamp8 (pyInt (((im.px x y).a : ℚ) * sc.a))))
    (pyInt offset.1) (pyInt offset.2)

/-! ## Concrete instantiations of the external oracles, used to evaluate
the model on closed inputs -/

/-- A concrete font-metric oracle: every string measures `(size, size)`. -/
def cGetsize : ℕ → String → ℕ × ℕ := fun size _ => (size, size)

/-- A concrete font-metric oracle reporting height 5 for every string,
including the empty one. -/
def cGetsize5 : ℕ → String → ℕ × ℕ := fun _ _ => (0, 5)

/-- A concrete blur oracle: the identity on images. -/
def cBlur : ℚ → Img → Img := fun _ im => im

/-- A concrete rasterisation oracle: drawing is a no-op on the canvas. -/
def cDraw : Img → ℚ × ℚ → String → String → Img := fun im _ _ _ => im

/-- A concrete alpha-compositing oracle: keep the lower layer. -/
def cAComp : Img → Img → Img := fun a _ => a

/-- A 2×2 single-color test image. -/
def cImg : Img := newImg 2 2 ⟨10, 20, 30, 255⟩

/-- A concrete font resolver that always succeeds. -/
def cFontOracle : String → Except String String := fun _ => .ok "/Library/Fonts/F.ttf"

/-- A concrete job-runner outcome oracle that always succeeds. -/
def cJobOracle : String → String → Except String Unit := fun _ _ => .ok ()

/-- A concrete sidecar whose recorded output file equals the input file
`a.mp4`. -/
def cSidecar : List (String × JVal) :=
  sidecarJson (styleOptions "t" "right bottom" 1 (3/4) (1/5) (1/25) (1/20))
    "F" "a.mp4" 95

/-- A concrete filesystem with exactly one sidecar, `a.mp4.json`. -/
def cFsMeta : String → Option (List (String × JVal)) :=
  fun s => if s = "a.mp4.json" then some cSidecar else none

/-- With the calibration height equal to the candidate size and a 100×100
image at `font_size = 1` (threshold 4), index 2 (size 6) is the first
candidate exceeding the threshold. -/
def cH1 : ∃ k, exceedsAt cGetsize (fontThreshold 100 100 1) k :=
  ⟨2, by norm_num [exceedsAt, fontThreshold, sizeAt, cGetsize]⟩

/-- As `cH1` but at `font_size = 2` (threshold 8): index 4 (size 10) is the
first candidate exceeding the threshold. -/
def cH2 : ∃ k, exceedsAt cGetsize (fontThreshold 100 100 2) k :=
  ⟨4, by norm_num [exceedsAt, fontThreshold, sizeAt, cGetsize]⟩

/-- The text layer of the concrete `add_watermark` run of `cRun` (input
`cImg`, text `"hi"`, position `"left top"`, selected size 2). -/
def cWm : Img :=
  plotLinesImg cDraw cGetsize 2 cImg.width 1 (marginFor cGetsize 2)
    ((1 / 5) * (marginFor cGetsize 2 : ℚ)) (newImg cImg.width cImg.height ⟨0, 0, 0, 0⟩)
    (pySplitNL "hi")
    (startY cImg.height 1
      ((wmBox cGetsize 2 ((1 / 5) * (marginFor cGetsize 2 : ℚ)) (pySplitNL "hi")).2)
      (marginFor cGetsize 2))

/-- The shadow-under-text layer of the concrete run. -/
def cWm2 : Img :=
  cAComp
    (makeShadow cBlur cWm
      ((marginFor cGetsize 2 : ℚ) * (1 / 25), (marginFor cGetsize 2 : ℚ) * (1 / 25))
      ⟨0, 0, 0, 1⟩ ((1 / 20) * (marginFor cGetsize 2 : ℚ)))
    cWm

/-- The watermark layer of the concrete run after the opacity-0 alpha
scaling. -/
def cWm3 : Img := putalpha cWm2 (enhanceChan 0 (fun x y => (cWm2.px x y).a))

/-- The output image of the concrete opacity-0 run. -/
def cOut : Img := compositeImg cWm3 cImg cWm3

/-! ## Theorems -/

/-- C6: the sidecar written by a successful single run — the style options
dict extended by `font_family`, `output_file` and `quality` — yields, after
batch mode pops those three entries back out, exactly the style options the
single run passed to the job runner (the `json.dumps`/`json.load`
round-trip on the insertion-ordered object is the identity, modelled as
such). -/
theorem sidecar_roundtrip (text position : String)
    (fontSize opacity lineSpacing shadowOffset shadowBlurRadius : ℚ)
    (fontFamily outputFile : String) (quality : ℤ) :
    batchLoadOptions (sidecarJson
        (styleOptions text position fontSize opacity lineSpacing shadowOffset
          shadowBlurRadius) fontFamily outputFile quality) =
      some (.str fontFamily, .str outputFile, .int quality,
        styleOptions text position fontSize opacity lineSpacing shadowOffset
          shadowBlurRadius) := rfl

/-- C9 (counterexample): with a font whose measured height of the empty
string is 5, the bounding-box computation for empty text gives
`wm_height = 5`, which is neither negative nor zero: `''.split('\n')` is
`['']`, one empty line, so the trailing spacing subtraction merely cancels
the one spacing that was added. -/
theorem empty_text_height_positive :
    (wmBox cGetsize5 10 (1/2) (pySplitNL "")).2 = 5 ∧
    ¬ (wmBox cGetsize5 10 (1/2) (pySplitNL "")).2 ≤ 0 := by
  have h0 : pySplitNL "" = [""] := by decide
  rw [h0]
  constructor
  · norm_num [wmBox, cGetsize5]
  · norm_num [wmBox, cGetsize5]

/-- C9 (amended): for empty text the line list is `['']` — a single empty
line — so `wm_height` equals the font's measured height of the empty
string: the trailing spacing subtraction exactly cancels the single added
spacing, and the result is never negative (it is zero exactly when the
font measures the empty string at height 0). -/
theorem empty_text_wm_height (getsize : ℕ → String → ℕ × ℕ) (size : ℕ)
    (spacing : ℚ) :
    pySplitNL "" = [""] ∧
    (wmBox getsize size spacing (pySplitNL "")).2 = ((getsize size "").2 : ℚ) ∧
    0 ≤ (wmBox getsize size spacing (pySplitNL "")).2 := by
  have h0 : pySplitNL "" = [""] := by decide
  refine ⟨h0, ?_, ?_⟩
  · rw [h0]
    simp [wmBox]
  · rw [h0]
    simp [wmBox]

/-- C10: the font locator splits the family string on commas, strips each
segment and discards empty segments, so `'A, B'` and `'A,B'` produce the
same search list and hence the identical directory search (same queries,
same found font) against any filesystem; and a family string whose
comma-segments all strip to empty yields an empty search list, raising the
not-found error after zero directory searches. -/
theorem font_family_parsing :
    (∀ tr dirs, searchNames tr dirs (parseFamilies "A, B") =
      searchNames tr dirs (parseFamilies "A,B")) ∧
    (∀ tr dirs family,
      ((pySplitComma family).map pyStrip).all (fun n => n = "") = true →
      getFont tr dirs family = ([], .error ("Font not found: " ++ family))) ∧
    parseFamilies "A, B" = ["A", "B"] := by
  refine ⟨?_, ?_, by decide⟩
  · intro tr dirs
    rw [show parseFamilies "A, B" = parseFamilies "A,B" from by decide]
  · intro tr dirs family hall
    have hempty : parseFamilies family = [] := by
      unfold parseFamilies
      rw [List.filter_eq_nil_iff]
      intro a ha
      simp only [List.all_eq_true] at hall
      simpa using hall a ha
    unfold getFont
    rw [hempty]
    rfl

/-- Helper: on a token list whose members are all recognized, the parse
loop succeeds and each axis accumulator is the fold where the last
horizontal (resp. vertical) token wins. -/
theorem parseTokens_all_recognized (position : String) :
    ∀ (toks : List String) (h v : ℤ), toks.all tokenRecognized = true →
      parseTokens position toks h v =
        .ok (toks.foldl (fun a t => if t = "right" then -1
               else if t = "left" then 1 else a) h,
             toks.foldl (fun a t => if t = "bottom" then -1
               else if t = "top" then 1 else a) v) := by
  intro toks
  induction toks with
  | nil => intro h v _; rfl
  | cons t rest ih =>
    intro h v hall
    simp only [List.all_cons, Bool.and_eq_true] at hall
    obtain ⟨ht, hrest⟩ := hall
    have ht' : t = "right" ∨ t = "left" ∨ t = "bottom" ∨ t = "top" := by
      simp [tokenRecognized] at ht
      tauto
    rcases ht' with h1 | h1 | h1 | h1 <;> subst h1 <;> exact ih _ _ hrest

/-- Helper: a token list containing an unrecognized token makes the parse
loop raise the `Unrecognized position` error. -/
theorem parseTokens_unrecognized (position : String) :
    ∀ (toks : List String) (h v : ℤ), toks.all tokenRecognized = false →
      parseTokens position toks h v = .error (posErr position) := by
  intro toks
  induction toks with
  | nil => intro h v hall; simp at hall
  | cons t rest ih =>
    intro h v hall
    by_cases hR : tokenRecognized t = true
    · have hrest : rest.all tokenRecognized = false := by
        simpa [List.all_cons, hR] using hall
      have ht' : t = "right" ∨ t = "left" ∨ t = "bottom" ∨ t = "top" := by
        simp [tokenRecognized] at hR
        tauto
      rcases ht' with h1 | h1 | h1 | h1 <;> subst h1 <;> exact ih _ _ hrest
    · have hb : tokenRecognized t = false := by simpa using hR
      have hn : ¬ t = "right" ∧ ¬ t = "left" ∧ ¬ t = "bottom" ∧ ¬ t = "top" := by
        simp [tokenRecognized, not_or] at hb
        tauto
      obtain ⟨n1, n2, n3, n4⟩ := hn
      unfold parseTokens
      rw [if_neg n1, if_neg n2, if_neg n3, if_neg n4]

/-- C8 (counterexample): a position string that repeats an axis token
(`"left left"`), or omits an axis (`"left"`), is accepted by the parser
without any configuration error — the last token of an axis simply wins
and a missing axis keeps its default — contradicting the claim that such
strings are configuration errors. -/
theorem position_repeat_token_accepted :
    parsePosition "left left" = .ok (1, -1) ∧
    parsePosition "left" = .ok (1, -1) := ⟨rfl, rfl⟩

/-- C8 (amended): the parsed position always carries exactly one value per
axis (a single `h_pos` and a single `v_pos`), defaulting to right+bottom
(in particular for the default string `"right bottom"` and for an empty
string), and any unrecognized token raises the configuration error; but
repeated or omitted axis tokens are accepted: the last token of each axis
wins and an omitted axis keeps its default. -/
theorem position_parse_amended :
    (∀ position, (pySplitWS position).all tokenRecognized = true →
      parsePosition position =
        .ok (axisH (pySplitWS position), axisV (pySplitWS position))) ∧
    (∀ position, (pySplitWS position).all tokenRecognized = false →
      parsePosition position = .error (posErr position)) ∧
    parsePosition "" = .ok (-1, -1) ∧
    parsePosition "right bottom" = .ok (-1, -1) := by
  refine ⟨?_, ?_, rfl, rfl⟩
  · intro position hall
    exact parseTokens_all_recognized position _ (-1) (-1) hall
  · intro position hall
    exact parseTokens_unrecognized position _ (-1) (-1) hall

/-- C8 (witness): `"top left"` parses to left+top, and the unknown token
`"middle"` raises the configuration error. -/
theorem position_parse_amended_witness :
    parsePosition "top left" = .ok (1, 1) ∧
    parsePosition "middle" = .error (posErr "middle") := by
  constructor
  · have h := position_parse_amended.1 "top left" (by decide)
    rw [h]
    rfl
  · exact position_parse_amended.2.1 "middle" (by decide)

/-- C7: when the input path equals the output path, the driver raises
before the job runner is invoked and before any file is opened for
writing: in single mode the check precedes font resolution, `run_job` and
the sidecar write (empty event trace); in batch mode it follows only the
sidecar read and the font resolution, and precedes `run_job` (the event
trace holds no `runJob` and no `writeFile` event). -/
theorem same_path_rejected_early :
    (∀ fontOracle jobOracle (text : List String) (fontFamily p : String),
      text ≠ [] →
      singleMode fontOracle jobOracle text fontFamily (some p) (some p) =
        ([], .error "`input_file` == `output_file`, which is not allowed.")) ∧
    (∀ fontOracle jobOracle fsMeta (file ff fontPath : String)
      (j : List (String × JVal)) (r₁ r₂ : JVal × List (String × JVal)),
      fsMeta (file ++ ".json") = some j →
      popKey "font_family" j = some r₁ →
      r₁.1 = .str ff →
      fontOracle ff = .ok fontPath →
      popKey "output_file" r₁.2 = some r₂ →
      r₂.1 = .str file →
      (popKey "quality" r₂.2).isSome = true →
      batchItem fontOracle jobOracle fsMeta file =
        ([.readFile (file ++ ".json"), .resolveFont ff],
         .error "`input_file` == `output_file`, which is not allowed.")) := by
  constructor
  · intro fo jo text ff p hne
    unfold singleMode
    rw [if_neg (by simp [hne])]
    simp
  · intro fo jo fs file ff fp j r₁ r₂ h1 h2 h3 h4 h5 h6 h7
    obtain ⟨q, hq⟩ := Option.isSome_iff_exists.mp h7
    unfold batchItem
    simp only [h1, h2, h3, h4, h5, h6, hq]
    rw [if_pos trivial]

/-- C7 (witness): a single run on `x.jpg → x.jpg` and a batch run on
`a.mp4` whose sidecar records `output_file = a.mp4` both fail with the
same-path error, with no `runJob` or `writeFile` event. -/
theorem same_path_rejected_early_witness :
    singleMode cFontOracle cJobOracle ["t"] "F" (some "x.jpg") (some "x.jpg") =
      ([], .error "`input_file` == `output_file`, which is not allowed.") ∧
    batchItem cFontOracle cJobOracle cFsMeta "a.mp4" =
      ([.readFile "a.mp4.json", .resolveFont "F"],
       .error "`input_file` == `output_file`, which is not allowed.") := by
  constructor
  · exact same_path_rejected_early.1 cFontOracle cJobOracle ["t"] "F" "x.jpg"
      (by decide)
  · exact same_path_rejected_early.2 cFontOracle cJobOracle cFsMeta "a.mp4" "F"
      "/Library/Fonts/F.ttf" cSidecar
      (JVal.str "F",
        styleOptions "t" "right bottom" 1 (3/4) (1/5) (1/25) (1/20) ++
          [("output_file", JVal.str "a.mp4"), ("quality", JVal.int 95)])
      (JVal.str "a.mp4",
        styleOptions "t" "right bottom" 1 (3/4) (1/5) (1/25) (1/20) ++
          [("quality", JVal.int 95)])
      rfl rfl rfl rfl rfl rfl rfl

/-- C10 (witness): a family string of only commas and whitespace raises the
not-found error with an empty query trace. -/
theorem font_family_parsing_witness :
    getFont (fun _ _ => none) ["/System/Library/Fonts"] " , ,, " =
      ([], .error "Font not found:  , ,, ") :=
  font_family_parsing.2.1 (fun _ _ => none) ["/System/Library/Fonts"] " , ,, "
    (by decide)

/-- Helper: when no candidate within the fuel exceeds the threshold, the
size-search loop exhausts its fuel. -/
theorem sizeLoop_eq_none (g : ℕ → String → ℕ × ℕ) (thr : ℚ) :
    ∀ (fuel j : ℕ), (∀ m, m < fuel → ¬ exceedsAt g thr (j + m)) →
      sizeLoop g thr fuel (sizeAt j) = none := by
  intro fuel
  induction fuel with
  | zero => intro j _; rfl
  | succ n ih =>
    intro j hno
    have h0 : ¬ exceedsAt g thr j := by simpa using hno 0 (Nat.succ_pos n)
    unfold exceedsAt at h0
    unfold sizeLoop
    rw [if_neg h0, show sizeAt j + 2 = sizeAt (j + 1) from by simp [sizeAt]; ring]
    exact ih (j + 1) (fun m hm => by
      have h := hno (m + 1) (by omega)
      rw [show j + (m + 1) = j + 1 + m from by ring] at h
      exact h)

/-- Helper: when the `m`-th candidate from the current one is the first to
exceed the threshold and the fuel suffices, the size-search loop selects
it. -/
theorem sizeLoop_eq_some (g : ℕ → String → ℕ × ℕ) (thr : ℚ) :
    ∀ (fuel j m : ℕ), m < fuel → exceedsAt g thr (j + m) →
      (∀ i, i < m → ¬ exceedsAt g thr (j + i)) →
      sizeLoop g thr fuel (sizeAt j) = some (sizeAt (j + m)) := by
  intro fuel
  induction fuel with
  | zero => intro j m hm; omega
  | succ n ih =>
    intro j m hm hex hmin
    cases m with
    | zero =>
      have h0 : exceedsAt g thr j := by simpa using hex
      unfold exceedsAt at h0
      unfold sizeLoop
      rw [if_pos h0]
      simp
    | succ m' =>
      have h0 : ¬ exceedsAt g thr j := by simpa using hmin 0 (Nat.succ_pos m')
      unfold exceedsAt at h0
      unfold sizeLoop
      rw [if_neg h0, show sizeAt j + 2 = sizeAt (j + 1) from by simp [sizeAt]; ring]
      rw [show j + (m' + 1) = j + 1 + m' from by ring] at hex ⊢
      exact ih (j + 1) m' (by omega) hex (fun i hi => by
        have h := hmin (i + 1) (by omega)
        rw [show j + (i + 1) = j + 1 + i from by ring] at h
        exact h)

/-- C3: whenever some candidate size of the arithmetic sequence
`2, 4, 6, ...` makes the calibration string's measured line height exceed
`min(imageWidth, imageHeight) * 0.04 * fontSize`, the auto-sizing loop
terminates (with any fuel beyond the first such index) and returns exactly
the first such size, the selected index satisfies the threshold while all
earlier ones do not, and `margin` is the calibration line height measured
at the selected size; when no candidate exceeds the threshold, the loop
runs out of any amount of fuel, i.e. the source's `while True` never
terminates. -/
theorem autosize_first_exceeding (getsize : ℕ → String → ℕ × ℕ)
    (imW imH : ℕ) (fontSize : ℚ) :
    (∀ (h : ∃ k, exceedsAt getsize (fontThreshold imW imH fontSize) k)
        (fuel : ℕ), Nat.find h < fuel →
      sizeLoop getsize (fontThreshold imW imH fontSize) fuel 2 =
          some (sizeAt (Nat.find h)) ∧
        exceedsAt getsize (fontThreshold imW imH fontSize) (Nat.find h) ∧
        (∀ j, j < Nat.find h →
          ¬ exceedsAt getsize (fontThreshold imW imH fontSize) j) ∧
        marginFor getsize (sizeAt (Nat.find h)) =
          (getsize (sizeAt (Nat.find h)) calibText).2) ∧
    ((¬ ∃ k, exceedsAt getsize (fontThreshold imW imH fontSize) k) →
      ∀ fuel, sizeLoop getsize (fontThreshold imW imH fontSize) fuel 2 = none) := by
  constructor
  · intro h fuel hfuel
    refine ⟨?_, Nat.find_spec h, fun j hj => Nat.find_min h hj, rfl⟩
    have := sizeLoop_eq_some getsize (fontThreshold imW imH fontSize) fuel 0
      (Nat.find h) hfuel (by simpa using Nat.find_spec h)
      (fun i hi => by simpa using Nat.find_min h hi)
    simpa [sizeAt] using this
  · intro hno fuel
    push_neg at hno
    have := sizeLoop_eq_none getsize (fontThreshold imW imH fontSize) fuel 0
      (fun m _ => by simpa using hno m)
    simpa [sizeAt] using this

/-- C3 (witness): with calibration height equal to the candidate size and a
100×100 image at `font_size = 1` (threshold 4), the loop terminates on fuel
5 and selects size 6, the first candidate exceeding 4. -/
theorem autosize_first_exceeding_witness :
    sizeLoop cGetsize (fontThreshold 100 100 1) 5 2 = some 6 := by
  have hf : Nat.find cH1 = 2 := by
    rw [Nat.find_eq_iff]
    refine ⟨by norm_num [exceedsAt, fontThreshold, sizeAt, cGetsize], ?_⟩
    intro n hn
    interval_cases n <;> norm_num [exceedsAt, fontThreshold, sizeAt, cGetsize]
  have h := (autosize_first_exceeding cGetsize 100 100 1).1 cH1 5 (by omega)
  rw [hf] at h
  exact h.1

/-- C4: auto-sizing is monotone in the style's `fontSize`: with the same
image and font metrics, a strictly larger `fontSize` raises the threshold,
so the first candidate size exceeding it — the size the loop selects — can
only be greater or equal. -/
theorem autosize_monotone (getsize : ℕ → String → ℕ × ℕ) (imW imH : ℕ)
    (fs1 fs2 : ℚ) (hlt : fs1 < fs2)
    (h1 : ∃ k, exceedsAt getsize (fontThreshold imW imH fs1) k)
    (h2 : ∃ k, exceedsAt getsize (fontThreshold imW imH fs2) k) :
    sizeAt (Nat.find h1) ≤ sizeAt (Nat.find h2) := by
  have hc : (0 : ℚ) ≤ (min imW imH : ℚ) * (4 / 100) := by positivity
  have hth : fontThreshold imW imH fs1 ≤ fontThreshold imW imH fs2 := by
    unfold fontThreshold
    exact mul_le_mul_of_nonneg_left hlt.le hc
  have hx : exceedsAt getsize (fontThreshold imW imH fs1) (Nat.find h2) :=
    lt_of_le_of_lt hth (Nat.find_spec h2)
  have : Nat.find h1 ≤ Nat.find h2 := Nat.find_min' h1 hx
  simp only [sizeAt]
  omega

/-- C4 (witness): at `font_size = 1` the selected candidate index is 2
(size 6), at `font_size = 2` it is 4 (size 10), and indeed 6 ≤ 10. -/
theorem autosize_monotone_witness :
    sizeAt (Nat.find cH1) ≤ sizeAt (Nat.find cH2) :=
  autosize_monotone cGetsize 100 100 1 2 (by norm_num) cH1 cH2

/-- C2: the shadow layer `add_watermark` builds has the text layer's size;
before the blur it is the constant `shadow_color` RGB image whose alpha at
each pixel is the text layer's alpha scaled by `shadow_color`'s alpha
component (byte-truncated), the whole layer translated (cyclically, via
`ImageChops.offset`) by `(margin * shadowOffset, margin * shadowOffset)`;
and the Gaussian blur of radius `shadowBlurRadius * margin` is applied
after that translation. -/
theorem make_shadow_spec (blur : ℚ → Img → Img)
    (hblur : ∀ r im, (blur r im).width = im.width ∧ (blur r im).height = im.height)
    (im : Img) (margin : ℕ) (shadowOffset shadowBlurRadius : ℚ) (sc : RGBA)
    (x y : ℕ) :
    makeShadow blur im ((margin : ℚ) * shadowOffset, (margin : ℚ) * shadowOffset)
        sc (shadowBlurRadius * (margin : ℚ)) =
      blur (shadowBlurRadius * (margin : ℚ))
        (preBlurShadow im
          ((margin : ℚ) * shadowOffset, (margin : ℚ) * shadowOffset) sc) ∧
    (preBlurShadow im
        ((margin : ℚ) * shadowOffset, (margin : ℚ) * shadowOffset) sc).width =
      im.width ∧
    (preBlurShadow im
        ((margin : ℚ) * shadowOffset, (margin : ℚ) * shadowOffset) sc).height =
      im.height ∧
    (makeShadow blur im ((margin : ℚ) * shadowOffset, (margin : ℚ) * shadowOffset)
        sc (shadowBlurRadius * (margin : ℚ))).width = im.width ∧
    (makeShadow blur im ((margin : ℚ) * shadowOffset, (margin : ℚ) * shadowOffset)
        sc (shadowBlurRadius * (margin : ℚ))).height = im.height ∧
    (preBlurShadow im
        ((margin : ℚ) * shadowOffset, (margin : ℚ) * shadowOffset) sc).px x y =
      ⟨toByte sc.r, toByte sc.g, toByte sc.b,
       clamp8 (pyInt
         (((im.px (cycIdx im.width ((x : ℤ) - pyInt ((margin : ℚ) * shadowOffset)))
              (cycIdx im.height ((y : ℤ) - pyInt ((margin : ℚ) * shadowOffset)))).a
            : ℚ) * sc.a))⟩ := by
  refine ⟨rfl, rfl, rfl, ?_, ?_, rfl⟩
  · exact (hblur _ _).1
  · exact (hblur _ _).2

/-- C2 (witness): on the concrete test image with opaque black shadow
color, margin 2 and `shadow_offset = 1/25`, the pre-blur shadow layer's
pixel `(0,0)` is black with full alpha, and with the identity blur the
shadow layer equals the pre-blur layer. -/
theorem make_shadow_spec_witness :
    (preBlurShadow cImg (((2 : ℕ) : ℚ) * (1 / 25), ((2 : ℕ) : ℚ) * (1 / 25))
        ⟨0, 0, 0, 1⟩).px 0 0 = ⟨0, 0, 0, 255⟩ ∧
    makeShadow cBlur cImg (((2 : ℕ) : ℚ) * (1 / 25), ((2 : ℕ) : ℚ) * (1 / 25))
        ⟨0, 0, 0, 1⟩ ((1 / 20) * ((2 : ℕ) : ℚ)) =
      preBlurShadow cImg (((2 : ℕ) : ℚ) * (1 / 25), ((2 : ℕ) : ℚ) * (1 / 25))
        ⟨0, 0, 0, 1⟩ := by
  have h := make_shadow_spec cBlur (fun r im => ⟨rfl, rfl⟩) cImg 2 (1 / 25)
    (1 / 20) ⟨0, 0, 0, 1⟩ 0 0
  refine ⟨?_, h.1⟩
  rw [h.2.2.2.2.2]
  have hoff : pyInt (((2 : ℕ) : ℚ) * (1 / 25)) = 0 := by
    norm_num [pyInt]
  rw [hoff]
  norm_num [toByte, pyInt, clamp8, cycIdx, cImg, newImg]
  decide

/-- Helper: scaling a channel by brightness factor 0 yields the zero
channel. -/
theorem enhanceChan_zero (chan : ℕ → ℕ → ℕ) (x y : ℕ) :
    enhanceChan 0 chan x y = 0 := by
  norm_num [enhanceChan, pyInt, clamp8]

/-- Helper: PIL's fixed-point multiply by weight 255 is the identity on
bytes. -/
theorem muldiv255_byte (c : ℕ) (hc : c ≤ 255) : muldiv255 c 255 = c := by
  unfold muldiv255
  omega

/-- Helper: PIL's fixed-point multiply by weight 0 is 0. -/
theorem muldiv255_zero (c : ℕ) : muldiv255 c 0 = 0 := by
  simp [muldiv255]

/-- Helper: paste-blending under a zero mask keeps the backdrop pixel. -/
theorem blendPixel_zero (bg fg : Pixel) (h : bg.inRange) :
    blendPixel bg fg 0 = bg := by
  obtain ⟨h1, h2, h3, h4⟩ := h
  unfold blendPixel blendChan
  rw [Nat.sub_zero, muldiv255_zero, muldiv255_zero, muldiv255_zero,
    muldiv255_zero, muldiv255_byte _ h1, muldiv255_byte _ h2,
    muldiv255_byte _ h3, muldiv255_byte _ h4]
  simp

/-- Helper: compositing any watermark layer whose alpha band has been
brightness-scaled by factor 0 over a base image leaves every in-range base
pixel unchanged. -/
theorem composite_enhance_zero (im2 base : Img) (chan : ℕ → ℕ → ℕ) (x y : ℕ)
    (hpx : (base.px x y).inRange) :
    (compositeImg (putalpha im2 (enhanceChan 0 chan)) base
      (putalpha im2 (enhanceChan 0 chan))).px x y = base.px x y := by
  have ha : ((putalpha im2 (enhanceChan 0 chan)).px x y).a = 0 :=
    enhanceChan_zero chan x y
  unfold compositeImg
  dsimp only
  split_ifs with h
  · rw [ha, blendPixel_zero _ _ hpx]
  · rfl

/-- C5: a run of `add_watermark` with `opacity = 0` that returns an image
returns one with the input's dimensions and, at every pixel with in-range
channels, exactly the input's pixel value: the brightness scaling zeroes
the watermark layer's alpha band, so the final `Image.composite` blend
reduces to the base image. -/
theorem opacity_zero_identity (getsize : ℕ → String → ℕ × ℕ)
    (blur : ℚ → Img → Img) (drawText : Img → ℚ × ℚ → String → String → Img)
    (alphaComp : Img → Img → Img) (fuel : ℕ) (inputImage : Img)
    (text position : String)
    (fontSize lineSpacing shadowOffset shadowBlurRadius : ℚ)
    (shadowColor : RGBA) (out : Img) (x y : ℕ)
    (hpx : (inputImage.px x y).inRange)
    (hrun : addWatermark getsize blur drawText alphaComp fuel inputImage text
      position fontSize 0 lineSpacing shadowOffset shadowBlurRadius
      shadowColor = some (.ok out)) :
    out.width = inputImage.width ∧ out.height = inputImage.height ∧
    out.px x y = inputImage.px x y := by
  simp only [addWatermark] at hrun
  cases hp : parsePosition position with
  | error e =>
    simp only [hp] at hrun
    simp at hrun
  | ok hv =>
    simp only [hp] at hrun
    cases hs : sizeLoop getsize
        (fontThreshold inputImage.width inputImage.height fontSize) fuel 2 with
    | none =>
      simp only [hs] at hrun
      simp at hrun
    | some size =>
      simp only [hs, Option.some.injEq, Except.ok.injEq] at hrun
      subst hrun
      exact ⟨rfl, rfl, composite_enhance_zero _ _ _ x y hpx⟩

/-- C5 (witness): the concrete opacity-0 run on the 2×2 test image returns
its input pixel unchanged at `(0, 0)`. -/
theorem opacity_zero_identity_witness :
    cOut.px 0 0 = cImg.px 0 0 ∧ cImg.px 0 0 = ⟨10, 20, 30, 255⟩ := by
  have hloop : sizeLoop cGetsize (fontThreshold cImg.width cImg.height 1) 10 2 =
      some 2 := by
    have h := sizeLoop_eq_some cGetsize (fontThreshold cImg.width cImg.height 1)
      10 0 0 (by omega)
      (by norm_num [exceedsAt, fontThreshold, sizeAt, cGetsize, cImg, newImg])
      (fun i hi => absurd hi (Nat.not_lt_zero i))
    simpa [sizeAt] using h
  have hrun : addWatermark cGetsize cBlur cDraw cAComp 10 cImg "hi" "left top"
      1 0 (1 / 5) (1 / 25) (1 / 20) ⟨0, 0, 0, 1⟩ = some (.ok cOut) := by
    simp only [addWatermark]
    rw [show parsePosition "left top" = .ok (1, 1) from rfl]
    rw [hloop]
    rfl
  refine ⟨?_, rfl⟩
  exact (opacity_zero_identity cGetsize cBlur cDraw cAComp 10 cImg "hi"
    "left top" 1 (1 / 5) (1 / 25) (1 / 20) ⟨0, 0, 0, 1⟩ cOut 0 0 (by decide)
    hrun).2.2

/-- Helper: the position list has one entry per line. -/
theorem linePositionsFrom_length (g : ℕ → String → ℕ × ℕ) (size imW : ℕ)
    (hpos : ℤ) (margin : ℕ) (spacing : ℚ) :
    ∀ (lines : List String) (y : ℚ),
      (linePositionsFrom g size imW hpos margin spacing lines y).length =
        lines.length := by
  intro lines
  induction lines with
  | nil => intro y; rfl
  | cons l rest ih => intro y; simp [linePositionsFrom, ih]

/-- Helper: each line's horizontal offset is `margin` unless `h_pos = -1`
(right), in which case it is `im_w - w - margin` for that line's own
measured width. -/
theorem linePositionsFrom_fst (g : ℕ → String → ℕ × ℕ) (size imW : ℕ)
    (hpos : ℤ) (margin : ℕ) (spacing : ℚ) :
    ∀ (lines : List String) (y : ℚ) (i : ℕ), i < lines.length →
      ((linePositionsFrom g size imW hpos margin spacing lines y).getD i
          (0, 0)).1 =
        if hpos = -1 then
          (imW : ℚ) - ((g size (lines.getD i "")).1 : ℚ) - (margin : ℚ)
        else (margin : ℚ) := by
  intro lines
  induction lines with
  | nil => intro y i hi; simp at hi
  | cons l rest ih =>
    intro y i hi
    cases i with
    | zero => simp [linePositionsFrom]
    | succ n =>
      simp only [linePositionsFrom, List.getD_cons_succ]
      exact ih _ n (by simpa using hi)

/-- Helper: the first entry's vertical offset is the starting cursor. -/
theorem linePositionsFrom_snd_head (g : ℕ → String → ℕ × ℕ) (size imW : ℕ)
    (hpos : ℤ) (margin : ℕ) (spacing : ℚ) (lines : List String) (y : ℚ)
    (hne : lines ≠ []) :
    ((linePositionsFrom g size imW hpos margin spacing lines y).getD 0
      (0, 0)).2 = y := by
  cases lines with
  | nil => exact absurd rfl hne
  | cons l rest => rfl

/-- Helper: after each line the vertical cursor advances by that line's
measured height plus the spacing. -/
theorem linePositionsFrom_snd_step (g : ℕ → String → ℕ × ℕ) (size imW : ℕ)
    (hpos : ℤ) (margin : ℕ) (spacing : ℚ) :
    ∀ (lines : List String) (y : ℚ) (i : ℕ), i + 1 < lines.length →
      ((linePositionsFrom g size imW hpos margin spacing lines y).getD (i + 1)
          (0, 0)).2 =
        ((linePositionsFrom g size imW hpos margin spacing lines y).getD i
            (0, 0)).2 + ((g size (lines.getD i "")).2 : ℚ) + spacing := by
  intro lines
  induction lines with
  | nil => intro y i hi; simp at hi
  | cons l rest ih =>
    intro y i hi
    cases i with
    | zero =>
      rcases rest with _ | ⟨r, rs⟩
      · simp at hi
      · simp only [linePositionsFrom, List.getD_cons_succ, List.getD_cons_zero]
    | succ n =>
      simp only [linePositionsFrom, List.getD_cons_succ]
      exact ih _ n (by simpa using hi)

/-- C1: for a non-empty line list, `plot_lines` starts the vertical cursor
at `margin` when `v_pos` is top (`1`) and at
`imageHeight - wmHeight - margin` when it is bottom (`-1`); every line's
horizontal offset is `margin` when `h_pos` is left (`1`) and
`imageWidth - lineWidth - margin` (with that line's own measured width)
when it is right (`-1`); and after each line the vertical cursor advances
by that line's measured height plus the spacing. -/
theorem plot_lines_offsets (getsize : ℕ → String → ℕ × ℕ) (size imW imH : ℕ)
    (hpos vpos : ℤ) (margin : ℕ) (spacing wmHeight : ℚ)
    (lines : List String) (hne : lines ≠ []) :
    (linePositions getsize size imW imH hpos vpos margin spacing wmHeight
        lines).length = lines.length ∧
    (vpos = 1 →
      ((linePositions getsize size imW imH hpos vpos margin spacing wmHeight
          lines).getD 0 (0, 0)).2 = (margin : ℚ)) ∧
    (vpos = -1 →
      ((linePositions getsize size imW imH hpos vpos margin spacing wmHeight
          lines).getD 0 (0, 0)).2 = (imH : ℚ) - wmHeight - (margin : ℚ)) ∧
    (∀ i, i < lines.length →
      (hpos = 1 →
        ((linePositions getsize size imW imH hpos vpos margin spacing wmHeight
            lines).getD i (0, 0)).1 = (margin : ℚ)) ∧
      (hpos = -1 →
        ((linePositions getsize size imW imH hpos vpos margin spacing wmHeight
            lines).getD i (0, 0)).1 =
          (imW : ℚ) - ((getsize size (lines.getD i "")).1 : ℚ) - (margin : ℚ))) ∧
    (∀ i, i + 1 < lines.length →
      ((linePositions getsize size imW imH hpos vpos margin spacing wmHeight
          lines).getD (i + 1) (0, 0)).2 =
        ((linePositions getsize size imW imH hpos vpos margin spacing wmHeight
            lines).getD i (0, 0)).2 +
          ((getsize size (lines.getD i "")).2 : ℚ) + spacing) := by
  unfold linePositions
  refine ⟨linePositionsFrom_length getsize size imW hpos margin spacing lines _,
    ?_, ?_, ?_, ?_⟩
  · intro hv
    subst hv
    rw [linePositionsFrom_snd_head getsize size imW hpos margin spacing lines _
      hne]
    norm_num [startY]
  · intro hv
    subst hv
    rw [linePositionsFrom_snd_head getsize size imW hpos margin spacing lines _
      hne]
    norm_num [startY]
  · intro i hi
    constructor
    · intro hp
      subst hp
      rw [linePositionsFrom_fst getsize size imW 1 margin spacing lines _ i hi]
      norm_num
    · intro hp
      subst hp
      rw [linePositionsFrom_fst getsize size imW (-1) margin spacing lines _ i
        hi]
      norm_num
  · intro i hi
    exact linePositionsFrom_snd_step getsize size imW hpos margin spacing lines
      _ i hi

/-- C1 (witness): with metrics measuring every line at `(3, 3)`, a 100×50
image, right+bottom position, margin 4, spacing 1/2 and `wmHeight` 7, the
two lines get vertical start `50 - 7 - 4 = 39` and horizontal offset
`100 - 3 - 4 = 93`, and the second line sits at `39 + 3 + 1/2`. -/
theorem plot_lines_offsets_witness :
    (linePositions cGetsize 3 100 50 (-1) (-1) 4 (1 / 2) 7
      ["ab", "c"]).length = 2 ∧
    ((linePositions cGetsize 3 100 50 (-1) (-1) 4 (1 / 2) 7
        ["ab", "c"]).getD 0 (0, 0)).2 = 39 ∧
    ((linePositions cGetsize 3 100 50 (-1) (-1) 4 (1 / 2) 7
        ["ab", "c"]).getD 0 (0, 0)).1 = 93 ∧
    ((linePositions cGetsize 3 100 50 (-1) (-1) 4 (1 / 2) 7
        ["ab", "c"]).getD 1 (0, 0)).2 = 39 + 3 + 1 / 2 := by
  have h := plot_lines_offsets cGetsize 3 100 50 (-1) (-1) 4 (1 / 2) 7
    ["ab", "c"] (by decide)
  refine ⟨by simpa using h.1, ?_, ?_, ?_⟩
  · rw [h.2.2.1 rfl]
    norm_num
  · rw [(h.2.2.2.1 0 (by norm_num)).2 rfl]
    norm_num [cGetsize]
  · rw [h.2.2.2.2 0 (by norm_num)]
    rw [h.2.2.1 rfl]
    norm_num [cGetsize]

end PhotoTool
